import Mathlib

/-!
Shallow embedding of the TrustPilot scoring core
(`src/lambda/trustpilot/classes.py`, class `TrustPilot`) over the reals.

Modelling conventions:
* Python floats are modelled as real numbers; `math.exp` / `math.log` become
  `Real.exp` / `Real.log`, and `math.log v base` becomes
  `Real.log v / Real.log base` (which is how CPython computes it).
* Timestamps (`createdAt` strings and `datetime.now()`) are modelled as
  rational day counts; `(now - datetime_obj).days` is the floor of the
  difference in days, matching Python's `timedelta.days` (floor division).
* The paginated review feed is modelled as the list of pages that the
  successive `next-page` links would yield, in fetch order; following the
  `next-page` href of a page means moving to the next list element.  The
  number of pages consumed by the loop (= number of HTTP page fetches) is
  returned alongside the loop state.
* Fallible Python code is embedded with `Except`: the unguarded division
  `sum(scores_list) / sum(max_scores_list)` raises `ZeroDivisionError` when
  the divisor is zero, and `data['id']` raises `KeyError` when the key is
  absent.
* Python's builtin `round(x, 1)` on a float rounds half to even
  (banker's rounding).  The `decimal.getcontext().rounding = ROUND_HALF_UP`
  mutation performed by `get_trustscore` configures the `decimal` module
  only; it has no effect on the builtin `round` applied to a `float`, so the
  rounding actually performed is half-even.  `pyRound1` below models this.
-/

namespace Trustpilot

/-- One review record from the feed JSON: `stars`, `createdAt` (modelled as a
rational day count) and the `countsTowardsTrustScore` flag. -/
structure Review where
  stars : ℤ
  createdAt : ℚ
  countsTowardsTrustScore : Bool
deriving DecidableEq

/-- One entry of the `links` array of a page of the feed JSON. -/
structure Link where
  rel : String
  href : String
deriving DecidableEq

/-- One page of the review feed: the `reviews` array and the `links` array. -/
structure Page where
  reviews : List Review
  links : List Link
deriving DecidableEq

/-- The Python exceptions relevant to this module.  The constructors
`notFoundError`, `upstreamError` and `invalidArgumentError` model the error
taxonomy named by the specification; the code itself only ever produces
`keyError`, `zeroDivisionError` and `requestsError` (the latter standing for
whatever exception the `requests` library raised, propagated unwrapped). -/
inductive PyErr where
  | keyError (key : String)
  | zeroDivisionError
  | requestsError (msg : String)
  | notFoundError
  | upstreamError
  | invalidArgumentError
deriving DecidableEq

noncomputable section

/-- Embeds `_score_stars`: `stars_score = (stars - 1) * 0.25`. -/
def score_stars (stars : ℤ) : ℝ := ((stars : ℝ) - 1) * 0.25

/-- The body of `_score_date` as a function of the already computed
`age_days`: `L / (1 + exp(-k * (age_days - x0)))` with `L = 1`, `k = 0.004`,
`x0 = 365 * 0.5`, then transformed by `-logistic_value + 1`. -/
def dateScoreOfAge (age_days : ℝ) : ℝ :=
  let L : ℝ := 1
  let k : ℝ := 0.004
  let x0 : ℝ := 365 * 0.5
  let logistic_value := L / (1 + Real.exp (-k * (age_days - x0)))
  let transformed := -logistic_value + 1
  transformed

/-- Embeds `_score_date`: parses `datetime_str` (here already a rational day count),
takes `age_days = (now - datetime_obj).days` (floor of the day difference,
as `timedelta.days` does) and applies the logistic decay. -/
def score_date (datetime_str now : ℚ) : ℝ :=
  dateScoreOfAge ((⌊now - datetime_str⌋ : ℤ) : ℝ)

/-- Embeds `_score_review`: returns `(aged_score, max_score)` where
`aged_score = total_score * date_score` and `max_score = date_score`. -/
def score_review (stars : ℤ) (created_at now : ℚ) : ℝ × ℝ :=
  let total_score := score_stars stars
  let date_score := score_date created_at now
  (total_score * date_score, date_score)

/-- Embeds `_max_score_threshold`: `log(n + x_translation) + y_translation` with
`x_translation = 0` and `y_translation = 6 - log(x_translation + 1)`. -/
def max_score_threshold (number_of_reviews : ℤ) : ℝ :=
  let starting_score : ℝ := 6
  let x_translation : ℝ := 0
  let y_translation := starting_score - Real.log (x_translation + 1)
  Real.log ((number_of_reviews : ℝ) + x_translation) + y_translation

/-- Embeds `_min_score_threshold`: `log(n + x_translation, 1.5) * -1 + y_translation`
with `x_translation = 5`, `base = 1.5` and
`y_translation = 6 - (log(x_translation + 1, base) * -1)`;
`math.log v base = log v / log base`. -/
def min_score_threshold (number_of_reviews : ℤ) : ℝ :=
  let starting_score : ℝ := 6
  let x_translation : ℝ := 5
  let base : ℝ := 1.5
  let y_translation :=
    starting_score - Real.log (x_translation + 1) / Real.log base * (-1)
  Real.log ((number_of_reviews : ℝ) + x_translation) / Real.log base * (-1)
    + y_translation

/-- Embeds `_check_score_threshold`: clamp `score` into the two thresholds. -/
def check_score_threshold (score : ℝ) (number_of_reviews : ℤ) : ℝ :=
  let min_score := min_score_threshold number_of_reviews
  let max_score := max_score_threshold number_of_reviews
  if min_score ≤ score ∧ score ≤ max_score then score
  else if score < min_score then min_score
  else max_score

/-- Embeds `_calculate_trustscore`: `sum(scores_list) / sum(max_scores_list) * 10`,
then the threshold check with `len(scores_list)`.  The division raises
`ZeroDivisionError` when the divisor is zero (in particular on two empty
lists, where it is `0 / 0` on ints). -/
def calculate_trustscore (scores_list max_scores_list : List ℝ) :
    Except PyErr ℝ :=
  if max_scores_list.sum = 0 then .error .zeroDivisionError
  else
    .ok (check_score_threshold (scores_list.sum / max_scores_list.sum * 10)
      (scores_list.length : ℤ))

/-- Rounding to an integer as Python's builtin `round` does on floats:
ties (fractional part exactly 1/2) go to the even neighbour, everything
else to the nearest integer. -/
def roundHalfEven (x : ℝ) : ℤ :=
  if Int.fract x = 1 / 2 then 2 * ⌊(x + 1) / 2⌋ else round x

/-- Models `round(x, 1)` on a Python float: half-even rounding at one decimal
place.  The `decimal` context mutation in `get_trustscore` does not alter
the behaviour of the builtin `round` on a `float`, so half-even is what the
code performs. -/
def pyRound1 (x : ℝ) : ℝ := ((roundHalfEven (x * 10) : ℤ) : ℝ) / 10

/-- The local accumulators of `get_trustscore`'s fetch/score loop. -/
structure LoopState where
  scores_list : List ℝ
  max_scores_list : List ℝ
  review_count : ℤ
  review_count_reached : Bool

/-- The accumulators as initialised at the top of `get_trustscore`. -/
def initState : LoopState := ⟨[], [], 0, false⟩

/-- The `for review in data['reviews']` loop body of `get_trustscore`:
skip reviews whose flag is false; otherwise score the review, append to both
lists, increment the counter, and break with `review_count_reached = True`
as soon as `review_count >= limit`. -/
def processReviews (limit : ℤ) (now : ℚ) :
    List Review → LoopState → LoopState
  | [], st => st
  | review :: rest, st =>
    if review.countsTowardsTrustScore then
      let sm := score_review review.stars review.createdAt now
      let st' : LoopState :=
        { scores_list := st.scores_list ++ [sm.1]
          max_scores_list := st.max_scores_list ++ [sm.2]
          review_count := st.review_count + 1
          review_count_reached := st.review_count_reached }
      if st'.review_count ≥ limit then
        { st' with review_count_reached := true }
      else processReviews limit now rest st'
    else processReviews limit now rest st

/-- The `has_next` scan over `data['links']`: is any link's `rel` equal to
`"next-page"`?  (The code also records the last such link's `href` as the
next url; in the list-of-pages model that url simply denotes the next
element of the feed list.) -/
def hasNextPage (page : Page) : Bool :=
  page.links.any (fun link => link.rel == "next-page")

/-- The `while (not review_count_reached) and has_next` loop of
`get_trustscore` over the feed, also counting how many pages were fetched.
Each iteration fetches one page (one element of the feed list), runs the
review loop, then rescans the links; the loop exits when the cap was
reached or no `next-page` link exists. -/
def runPages (limit : ℤ) (now : ℚ) :
    List Page → LoopState → LoopState × ℕ
  | [], st => (st, 0)
  | page :: rest, st =>
    let st' := processReviews limit now page.reviews st
    if st'.review_count_reached || !(hasNextPage page) then (st', 1)
    else
      let r := runPages limit now rest st'
      (r.1, r.2 + 1)

/-- The loop state after `get_trustscore`'s fetch/score loop finishes. -/
def finalState (feed : List Page) (now : ℚ) (limit : ℤ) : LoopState :=
  (runPages limit now feed initState).1

/-- How many pages `get_trustscore`'s loop fetches on the given feed. -/
def fetchedPages (feed : List Page) (now : ℚ) (limit : ℤ) : ℕ :=
  (runPages limit now feed initState).2

/-- Embeds `get_trustscore(limit)`: run the fetch/score loop from the first page,
compute the trust score, and round it to one decimal place (with the
builtin float `round`, i.e. half-even — see `pyRound1`). -/
def get_trustscore (feed : List Page) (now : ℚ) (limit : ℤ) :
    Except PyErr ℝ :=
  match calculate_trustscore (finalState feed now limit).scores_list
      (finalState feed now limit).max_scores_list with
  | .error e => .error e
  | .ok trustscore => .ok (pyRound1 trustscore)

/-- The `sum(scores_list) / sum(max_scores_list) * 10` value on the final
loop state (the raw aggregate before the threshold check). -/
def rawAggregate (feed : List Page) (now : ℚ) (limit : ℤ) : ℝ :=
  (finalState feed now limit).scores_list.sum /
    (finalState feed now limit).max_scores_list.sum * 10

/-- The clamped score of `_calculate_trustscore` on the final loop state,
before the final rounding. -/
def clampedScore (feed : List Page) (now : ℚ) (limit : ℤ) : ℝ :=
  check_score_threshold (rawAggregate feed now limit)
    ((finalState feed now limit).scores_list.length : ℤ)

end

/-- Models `data['id']` on a JSON object (modelled as a key/value list): the value
at the first matching key, or `KeyError` when the key is absent. -/
def dictGetStr (data : List (String × String)) (key : String) :
    Except PyErr String :=
  match data.find? (fun kv => kv.1 == key) with
  | some kv => .ok kv.2
  | none => .error (.keyError key)

/-- Embeds `_get_json`: perform the GET request and return the parsed JSON.  The
request is modelled by its outcome: either a JSON object or the exception
raised by the `requests` library, which `_get_json` does not catch and
therefore propagates unchanged (tagged `requestsError` here). -/
def get_json (response : Except String (List (String × String))) :
    Except PyErr (List (String × String)) :=
  match response with
  | .error e => .error (.requestsError e)
  | .ok data => .ok data

/-- Embeds `_get_business_unit`: fetch the find-business-unit JSON for the domain
and return `data['id']`. -/
def get_business_unit (response : Except String (List (String × String))) :
    Except PyErr String :=
  match get_json response with
  | .error e => .error e
  | .ok data => dictGetStr data "id"

/-- The number of reviews of a review list that count towards the score. -/
def qualifyingReviewsL (reviews : List Review) : ℕ :=
  (reviews.filter (fun r => r.countsTowardsTrustScore)).length

/-- The number of reviews of a page that count towards the score. -/
def qualifyingReviews (page : Page) : ℕ := qualifyingReviewsL page.reviews

/-- The number of qualifying reviews of a whole feed. -/
def qualifyingCount (feed : List Page) : ℕ :=
  (feed.map qualifyingReviews).sum

/-- A feed list is a faithful picture of a linked page chain when every page
except possibly the last carries a `next-page` link. -/
def Chain : List Page → Prop
  | [] => True
  | [_] => True
  | page :: rest => hasNextPage page = true ∧ Chain rest

/-- How many pages are needed to gather `needed` further qualifying
reviews: the least prefix of the feed containing that many. -/
def pagesNeededZ (needed : ℤ) : List Page → ℕ
  | [] => 0
  | page :: rest =>
    if needed ≤ (qualifyingReviews page : ℤ) then 1
    else 1 + pagesNeededZ (needed - (qualifyingReviews page : ℤ)) rest

/-- A page with the non-qualifying reviews dropped (links untouched). -/
def filterPage (page : Page) : Page :=
  { reviews := page.reviews.filter (fun r => r.countsTowardsTrustScore)
    links := page.links }

/-! ## Basic facts about the per-review date score -/

/-- The logistic date score is strictly positive at every age. -/
theorem dateScoreOfAge_pos (a : ℝ) : 0 < dateScoreOfAge a := by
  have h1 : (0:ℝ) < 1 + Real.exp (-(0.004:ℝ) * (a - 365 * 0.5)) := by
    have := Real.exp_pos (-(0.004:ℝ) * (a - 365 * 0.5))
    linarith
  have h2 : (1:ℝ) / (1 + Real.exp (-(0.004:ℝ) * (a - 365 * 0.5))) < 1 := by
    rw [div_lt_one h1]
    have := Real.exp_pos (-(0.004:ℝ) * (a - 365 * 0.5))
    linarith
  simp only [dateScoreOfAge]
  linarith

/-- The logistic date score is strictly below one at every age. -/
theorem dateScoreOfAge_lt_one (a : ℝ) : dateScoreOfAge a < 1 := by
  have h1 : (0:ℝ) < 1 + Real.exp (-(0.004:ℝ) * (a - 365 * 0.5)) := by
    have := Real.exp_pos (-(0.004:ℝ) * (a - 365 * 0.5))
    linarith
  have h2 : (0:ℝ) < 1 / (1 + Real.exp (-(0.004:ℝ) * (a - 365 * 0.5))) :=
    div_pos one_pos h1
  simp only [dateScoreOfAge]
  linarith

/-- The value of `score_date` always lies strictly between 0 and 1. -/
theorem score_date_mem (created_at now : ℚ) :
    0 < score_date created_at now ∧ score_date created_at now < 1 :=
  ⟨dateScoreOfAge_pos _, dateScoreOfAge_lt_one _⟩

/-- C9: the per-review date score computed by `_score_date`, namely
`1 - 1/(1 + exp(-k*(age_days - x0)))` with `k = 0.004` and `x0 = 182.5`,
is strictly decreasing in the review's age in days: for every pair of ages
`a1 < a2`, the score at `a1` exceeds the score at `a2`. -/
theorem date_score_strictly_decreasing (a1 a2 : ℝ) (h : a1 < a2) :
    dateScoreOfAge a2 < dateScoreOfAge a1 := by
  have hlt : -(0.004:ℝ) * (a2 - 365 * 0.5) < -(0.004:ℝ) * (a1 - 365 * 0.5) := by
    nlinarith
  have he : Real.exp (-(0.004:ℝ) * (a2 - 365 * 0.5))
      < Real.exp (-(0.004:ℝ) * (a1 - 365 * 0.5)) := Real.exp_lt_exp.mpr hlt
  have h2 : (0:ℝ) < 1 + Real.exp (-(0.004:ℝ) * (a2 - 365 * 0.5)) := by
    have := Real.exp_pos (-(0.004:ℝ) * (a2 - 365 * 0.5))
    linarith
  have hdiv : 1 / (1 + Real.exp (-(0.004:ℝ) * (a1 - 365 * 0.5)))
      < 1 / (1 + Real.exp (-(0.004:ℝ) * (a2 - 365 * 0.5))) :=
    one_div_lt_one_div_of_lt h2 (by linarith)
  simp only [dateScoreOfAge]
  linarith

/-- Witness for the strict decrease at the concrete ages 0 and 1. -/
theorem date_score_strictly_decreasing_witness :
    dateScoreOfAge 1 < dateScoreOfAge 0 :=
  date_score_strictly_decreasing 0 1 (by norm_num)

/-! ## The two thresholds -/

/-- Rewrites `_max_score_threshold` in closed form: `log n + 6`. -/
theorem max_score_threshold_eq (n : ℤ) :
    max_score_threshold n = Real.log (n : ℝ) + 6 := by
  simp [max_score_threshold, Real.log_one]

/-- Rewrites `_min_score_threshold` in closed form:
`6 - (log(n+5) - log 6) / log 1.5`. -/
theorem min_score_threshold_eq (n : ℤ) :
    min_score_threshold n
      = 6 - (Real.log ((n : ℝ) + 5) - Real.log 6) / Real.log 1.5 := by
  simp only [min_score_threshold]
  norm_num
  ring

/-- For at least one review the min threshold never exceeds 6. -/
theorem min_score_threshold_le_six (n : ℤ) (h : 1 ≤ n) :
    min_score_threshold n ≤ 6 := by
  rw [min_score_threshold_eq]
  have hb : 0 < Real.log (1.5:ℝ) := Real.log_pos (by norm_num)
  have hn : (6:ℝ) ≤ (n : ℝ) + 5 := by
    have : (1:ℝ) ≤ (n : ℝ) := by exact_mod_cast h
    linarith
  have hlog : Real.log (6:ℝ) ≤ Real.log ((n : ℝ) + 5) :=
    Real.log_le_log (by norm_num) hn
  have hd : 0 ≤ (Real.log ((n : ℝ) + 5) - Real.log 6) / Real.log 1.5 :=
    div_nonneg (by linarith) hb.le
  linarith

/-- For at least one review the max threshold is at least 6. -/
theorem six_le_max_score_threshold (n : ℤ) (h : 1 ≤ n) :
    6 ≤ max_score_threshold n := by
  rw [max_score_threshold_eq]
  have : 0 ≤ Real.log (n : ℝ) := Real.log_nonneg (by exact_mod_cast h)
  linarith

/-- Whatever the raw score, the clamped value lies between the two
thresholds (for at least one counted review). -/
theorem check_score_threshold_mem (s : ℝ) (n : ℤ) (h : 1 ≤ n) :
    min_score_threshold n ≤ check_score_threshold s n ∧
      check_score_threshold s n ≤ max_score_threshold n := by
  have h1 := min_score_threshold_le_six n h
  have h2 := six_le_max_score_threshold n h
  simp only [check_score_threshold]
  split_ifs with hin hlt
  · exact ⟨hin.1, hin.2⟩
  · exact ⟨le_refl _, by linarith⟩
  · exact ⟨by linarith, le_refl _⟩

/-! ## Rounding -/

/-- Half-even rounding moves a real by at most one half. -/
theorem abs_roundHalfEven_sub (x : ℝ) :
    |((roundHalfEven x : ℤ) : ℝ) - x| ≤ 1 / 2 := by
  unfold roundHalfEven
  split_ifs with h
  · have hx : x = (⌊x⌋ : ℝ) + 1 / 2 := by
      have hf := Int.floor_add_fract x
      rw [h] at hf
      linarith
    rcases Int.even_or_odd ⌊x⌋ with ⟨t, ht⟩ | ⟨t, ht⟩
    · have hfloor : ⌊(x + 1) / 2⌋ = t := by
        rw [Int.floor_eq_iff]
        rw [hx, ht]
        push_cast
        constructor <;> linarith
      rw [hfloor, hx, ht]
      rw [abs_le]
      push_cast
      constructor <;> linarith
    · have hfloor : ⌊(x + 1) / 2⌋ = t + 1 := by
        rw [Int.floor_eq_iff]
        rw [hx, ht]
        push_cast
        constructor <;> linarith
      rw [hfloor, hx, ht]
      rw [abs_le]
      push_cast
      constructor <;> linarith
  · rw [abs_sub_comm]
    exact abs_sub_round x

/-- Rounding to one decimal place moves the value by at most `1/20`. -/
theorem pyRound1_near (x : ℝ) : |pyRound1 x - x| ≤ 1 / 20 := by
  have h := abs_roundHalfEven_sub (x * 10)
  unfold pyRound1
  rw [show ((roundHalfEven (x * 10) : ℤ) : ℝ) / 10 - x
      = (((roundHalfEven (x * 10) : ℤ) : ℝ) - x * 10) / 10 by ring,
    abs_div]
  rw [show |(10:ℝ)| = 10 by norm_num]
  linarith

/-- Half-even rounding of a value whose tenfold is an integer is exact. -/
theorem pyRound1_int_tenth (m : ℤ) : pyRound1 ((m : ℝ) / 10) = (m : ℝ) / 10 := by
  unfold pyRound1 roundHalfEven
  have hm : (m : ℝ) / 10 * 10 = (m : ℝ) := by ring
  rw [hm]
  have hfr : Int.fract ((m : ℝ)) = 0 := Int.fract_intCast m
  rw [hfr]
  norm_num

/-! ## Concrete logarithm bounds -/

/-- Bound `log 3 < 1.1`, via `3^10 < e^11`. -/
theorem log_three_lt : Real.log 3 < 1.1 := by
  have h2 : (2.7182818283:ℝ) < Real.exp 1 := Real.exp_one_gt_d9
  have hpow : (3:ℝ) ^ (10:ℕ) < Real.exp 1.1 ^ (10:ℕ) := by
    have he : Real.exp (1.1:ℝ) ^ (10:ℕ) = Real.exp 11 := by
      rw [← Real.exp_nat_mul]; norm_num
    have he1 : Real.exp (11:ℝ) = Real.exp 1 ^ (11:ℕ) := by
      rw [← Real.exp_nat_mul]; norm_num
    rw [he, he1]
    calc (3:ℝ) ^ (10:ℕ) < (2.7182818283:ℝ) ^ (11:ℕ) := by norm_num
      _ ≤ Real.exp 1 ^ (11:ℕ) := pow_le_pow_left₀ (by norm_num) h2.le 11
  have h3 : (3:ℝ) < Real.exp 1.1 :=
    lt_of_pow_lt_pow_left₀ 10 (Real.exp_pos _).le hpow
  exact (Real.log_lt_iff_lt_exp (by norm_num)).mpr h3

/-- Bound `1.05 < log 3`, via `e^21 < 3^20`. -/
theorem log_three_gt : (1.05:ℝ) < Real.log 3 := by
  have h2 : Real.exp 1 < 2.7182818286 := Real.exp_one_lt_d9
  have hpow : Real.exp 1.05 ^ (20:ℕ) < (3:ℝ) ^ (20:ℕ) := by
    have he : Real.exp (1.05:ℝ) ^ (20:ℕ) = Real.exp 21 := by
      rw [← Real.exp_nat_mul]; norm_num
    have he1 : Real.exp (21:ℝ) = Real.exp 1 ^ (21:ℕ) := by
      rw [← Real.exp_nat_mul]; norm_num
    rw [he, he1]
    calc Real.exp 1 ^ (21:ℕ) ≤ (2.7182818286:ℝ) ^ (21:ℕ) :=
        pow_le_pow_left₀ (Real.exp_pos _).le h2.le 21
      _ < (3:ℝ) ^ (20:ℕ) := by norm_num
  have h3 : Real.exp 1.05 < 3 :=
    lt_of_pow_lt_pow_left₀ 20 (by norm_num) hpow
  exact (Real.lt_log_iff_exp_lt (by norm_num)).mpr h3

/-- Bound `1.25 < log 10`, via `e^5 < 10^4`. -/
theorem log_ten_gt : (1.25:ℝ) < Real.log 10 := by
  have h2 : Real.exp 1 < 2.7182818286 := Real.exp_one_lt_d9
  have hpow : Real.exp 1.25 ^ (4:ℕ) < (10:ℝ) ^ (4:ℕ) := by
    have he : Real.exp (1.25:ℝ) ^ (4:ℕ) = Real.exp 5 := by
      rw [← Real.exp_nat_mul]; norm_num
    have he1 : Real.exp (5:ℝ) = Real.exp 1 ^ (5:ℕ) := by
      rw [← Real.exp_nat_mul]; norm_num
    rw [he, he1]
    calc Real.exp 1 ^ (5:ℕ) ≤ (2.7182818286:ℝ) ^ (5:ℕ) :=
        pow_le_pow_left₀ (Real.exp_pos _).le h2.le 5
      _ < (10:ℝ) ^ (4:ℕ) := by norm_num
  have h3 : Real.exp 1.25 < 10 :=
    lt_of_pow_lt_pow_left₀ 4 (by norm_num) hpow
  exact (Real.lt_log_iff_exp_lt (by norm_num)).mpr h3

/-! ## C6: the thresholds at one review -/

/-- C6: for one counted review both thresholds are exactly 6
(`max_threshold(1) = ln(1) + 6 = 6`, `min_threshold(1) = 6`), so the clamp
maps a raw score of 10 down to exactly 6 and a raw score of 0 up to
`min_threshold(1)`. -/
theorem thresholds_at_one_review :
    max_score_threshold 1 = 6 ∧ min_score_threshold 1 = 6 ∧
      check_score_threshold 10 1 = 6 ∧
      check_score_threshold 0 1 = min_score_threshold 1 := by
  have hmax : max_score_threshold 1 = 6 := by
    rw [max_score_threshold_eq]
    norm_num [Real.log_one]
  have hmin : min_score_threshold 1 = 6 := by
    rw [min_score_threshold_eq]
    norm_num
  refine ⟨hmax, hmin, ?_, ?_⟩
  · simp only [check_score_threshold]
    rw [hmax, hmin]
    norm_num
  · simp only [check_score_threshold]
    rw [hmax, hmin]
    norm_num

/-! ## Unfolding equations for the fetch/score loop -/

theorem processReviews_nil (limit : ℤ) (now : ℚ) (st : LoopState) :
    processReviews limit now [] st = st := rfl

theorem processReviews_cons_skip (limit : ℤ) (now : ℚ) (r : Review)
    (rest : List Review) (st : LoopState)
    (h : r.countsTowardsTrustScore = false) :
    processReviews limit now (r :: rest) st
      = processReviews limit now rest st := by
  simp [processReviews, h]

theorem processReviews_cons_count (limit : ℤ) (now : ℚ) (r : Review)
    (rest : List Review) (st : LoopState)
    (h : r.countsTowardsTrustScore = true) :
    processReviews limit now (r :: rest) st
      = if st.review_count + 1 ≥ limit then
          ⟨st.scores_list ++ [(score_review r.stars r.createdAt now).1],
           st.max_scores_list ++ [(score_review r.stars r.createdAt now).2],
           st.review_count + 1, true⟩
        else processReviews limit now rest
          ⟨st.scores_list ++ [(score_review r.stars r.createdAt now).1],
           st.max_scores_list ++ [(score_review r.stars r.createdAt now).2],
           st.review_count + 1, st.review_count_reached⟩ := by
  simp [processReviews, h]

theorem runPages_nil (limit : ℤ) (now : ℚ) (st : LoopState) :
    runPages limit now [] st = (st, 0) := rfl

theorem runPages_cons (limit : ℤ) (now : ℚ) (p : Page) (rest : List Page)
    (st : LoopState) :
    runPages limit now (p :: rest) st
      = if (processReviews limit now p.reviews st).review_count_reached
            || !(hasNextPage p)
        then (processReviews limit now p.reviews st, 1)
        else ((runPages limit now rest
                (processReviews limit now p.reviews st)).1,
              (runPages limit now rest
                (processReviews limit now p.reviews st)).2 + 1) := by
  simp [runPages]

/-- A one-page feed: the loop always stops after the single fetch,
whether because the cap was reached or because a `next-page` link is
missing or the feed list is exhausted. -/
theorem runPages_singleton (limit : ℤ) (now : ℚ) (p : Page)
    (st : LoopState) :
    runPages limit now [p] st = (processReviews limit now p.reviews st, 1) := by
  rw [runPages_cons]
  split_ifs with h
  · rfl
  · rw [runPages_nil]

theorem qualifyingReviewsL_nil : qualifyingReviewsL [] = 0 := rfl

theorem qualifyingReviewsL_cons (r : Review) (rest : List Review) :
    qualifyingReviewsL (r :: rest)
      = (if r.countsTowardsTrustScore then 1 else 0) + qualifyingReviewsL rest := by
  by_cases hc : r.countsTowardsTrustScore <;>
    simp [qualifyingReviewsL, hc, Nat.add_comm]

theorem qualifyingCount_nil : qualifyingCount [] = 0 := rfl

theorem qualifyingCount_cons (p : Page) (rest : List Page) :
    qualifyingCount (p :: rest) = qualifyingReviews p + qualifyingCount rest := by
  simp [qualifyingCount]

/-! ## Loop invariants -/

/-- Consistency of the loop accumulators: the review counter equals the
length of both score lists. -/
def Consistent (st : LoopState) : Prop :=
  st.review_count = (st.scores_list.length : ℤ) ∧
    st.scores_list.length = st.max_scores_list.length

/-- All recorded max scores lie strictly between 0 and 1. -/
def MaxScoresBounded (st : LoopState) : Prop :=
  ∀ m ∈ st.max_scores_list, 0 < m ∧ m < 1

theorem processReviews_consistent (limit : ℤ) (now : ℚ) (rs : List Review) :
    ∀ st : LoopState, Consistent st →
      Consistent (processReviews limit now rs st) := by
  induction rs with
  | nil => intro st h; rw [processReviews_nil]; exact h
  | cons r rest ih =>
    intro st h
    rcases Bool.eq_false_or_eq_true r.countsTowardsTrustScore with hc | hc
    · rw [processReviews_cons_count _ _ _ _ _ hc]
      obtain ⟨h1, h2⟩ := h
      split_ifs with hl
      · exact ⟨by simp [h1], by simp [h2]⟩
      · exact ih _ ⟨by simp [h1], by simp [h2]⟩
    · rw [processReviews_cons_skip _ _ _ _ _ hc]; exact ih st h

theorem processReviews_bounded (limit : ℤ) (now : ℚ) (rs : List Review) :
    ∀ st : LoopState, MaxScoresBounded st →
      MaxScoresBounded (processReviews limit now rs st) := by
  induction rs with
  | nil => intro st h; rw [processReviews_nil]; exact h
  | cons r rest ih =>
    intro st h
    have hnew : ∀ m ∈ st.max_scores_list
        ++ [(score_review r.stars r.createdAt now).2], 0 < m ∧ m < 1 := by
      intro m hm
      rcases List.mem_append.mp hm with hm | hm
      · exact h m hm
      · rcases List.mem_singleton.mp hm with rfl
        simpa [score_review] using score_date_mem r.createdAt now
    rcases Bool.eq_false_or_eq_true r.countsTowardsTrustScore with hc | hc
    · rw [processReviews_cons_count _ _ _ _ _ hc]
      split_ifs with hl
      · exact hnew
      · exact ih _ hnew
    · rw [processReviews_cons_skip _ _ _ _ _ hc]; exact ih st h

theorem runPages_consistent (limit : ℤ) (now : ℚ) (ps : List Page) :
    ∀ st : LoopState, Consistent st →
      Consistent (runPages limit now ps st).1 := by
  induction ps with
  | nil => intro st h; rw [runPages_nil]; exact h
  | cons p rest ih =>
    intro st h
    rw [runPages_cons]
    split_ifs with hcond
    · exact processReviews_consistent limit now p.reviews st h
    · exact ih _ (processReviews_consistent limit now p.reviews st h)

theorem runPages_bounded (limit : ℤ) (now : ℚ) (ps : List Page) :
    ∀ st : LoopState, MaxScoresBounded st →
      MaxScoresBounded (runPages limit now ps st).1 := by
  induction ps with
  | nil => intro st h; rw [runPages_nil]; exact h
  | cons p rest ih =>
    intro st h
    rw [runPages_cons]
    split_ifs with hcond
    · exact processReviews_bounded limit now p.reviews st h
    · exact ih _ (processReviews_bounded limit now p.reviews st h)

theorem finalState_consistent (feed : List Page) (now : ℚ) (limit : ℤ) :
    Consistent (finalState feed now limit) :=
  runPages_consistent limit now feed initState ⟨rfl, rfl⟩

theorem finalState_bounded (feed : List Page) (now : ℚ) (limit : ℤ) :
    MaxScoresBounded (finalState feed now limit) :=
  runPages_bounded limit now feed initState (by intro m hm; cases hm)

/-- With at least one counted review, the divisor of the aggregation is
strictly positive. -/
theorem finalState_sum_pos (feed : List Page) (now : ℚ) (limit : ℤ)
    (h : 1 ≤ (finalState feed now limit).review_count) :
    0 < (finalState feed now limit).max_scores_list.sum := by
  obtain ⟨h1, h2⟩ := finalState_consistent feed now limit
  have hne : (finalState feed now limit).max_scores_list ≠ [] := by
    intro habs
    rw [habs, List.length_nil] at h2
    rw [List.length_eq_zero.mp h2] at h1
    simp at h1
    omega
  exact List.sum_pos _
    (fun m hm => (finalState_bounded feed now limit m hm).1) hne

/-! ## Counting: how many reviews the loop consumes -/

theorem pagesNeededZ_nil (needed : ℤ) : pagesNeededZ needed [] = 0 := rfl

theorem pagesNeededZ_cons (needed : ℤ) (p : Page) (rest : List Page) :
    pagesNeededZ needed (p :: rest)
      = if needed ≤ (qualifyingReviews p : ℤ) then 1
        else 1 + pagesNeededZ (needed - (qualifyingReviews p : ℤ)) rest := by
  simp [pagesNeededZ]

theorem Chain_cons₂ (p q : Page) (qs : List Page) :
    Chain (p :: q :: qs) ↔ hasNextPage p = true ∧ Chain (q :: qs) :=
  Iff.rfl

/-- Behaviour of the page-level review loop with respect to the counter.
Writing `need = max (limit - count) 1` for the number of further qualifying
reviews that triggers the cap (the check runs only after a review is
counted, so even a non-positive limit needs one further review): if the
page holds fewer than `need` qualifying reviews they are all counted and
the cap flag stays down; otherwise the counter ends at `max limit (count+1)`
and the flag is raised mid-page. -/
theorem processReviews_count (limit : ℤ) (now : ℚ) (rs : List Review) :
    ∀ st : LoopState, st.review_count_reached = false →
      (((qualifyingReviewsL rs : ℤ) < max (limit - st.review_count) 1 →
        (processReviews limit now rs st).review_count
            = st.review_count + (qualifyingReviewsL rs : ℤ) ∧
        (processReviews limit now rs st).review_count_reached = false) ∧
      (max (limit - st.review_count) 1 ≤ (qualifyingReviewsL rs : ℤ) →
        (processReviews limit now rs st).review_count
            = max limit (st.review_count + 1) ∧
        (processReviews limit now rs st).review_count_reached = true)) := by
  induction rs with
  | nil =>
    intro st hr
    rw [qualifyingReviewsL_nil, processReviews_nil]
    constructor
    · intro _
      exact ⟨by omega, hr⟩
    · intro habs
      exfalso
      omega
  | cons r rest ih =>
    intro st hr
    rcases Bool.eq_false_or_eq_true r.countsTowardsTrustScore with hc | hc
    · rw [processReviews_cons_count _ _ _ _ _ hc, qualifyingReviewsL_cons,
        hc, if_pos rfl]
      split_ifs with hl
      · constructor
        · intro hlt
          exfalso
          push_cast at hlt
          omega
        · intro _
          refine ⟨?_, rfl⟩
          show st.review_count + 1 = max limit (st.review_count + 1)
          omega
      · have hih := ih
          ⟨st.scores_list ++ [(score_review r.stars r.createdAt now).1],
           st.max_scores_list ++ [(score_review r.stars r.createdAt now).2],
           st.review_count + 1, st.review_count_reached⟩ hr
        constructor
        · intro hlt
          have h1 : (qualifyingReviewsL rest : ℤ)
              < max (limit - (st.review_count + 1)) 1 := by
            push_cast at hlt
            omega
          obtain ⟨ha, hb⟩ := hih.1 h1
          have ha' : (processReviews limit now rest
              ⟨st.scores_list ++ [(score_review r.stars r.createdAt now).1],
               st.max_scores_list
                 ++ [(score_review r.stars r.createdAt now).2],
               st.review_count + 1, st.review_count_reached⟩).review_count
              = (st.review_count + 1) + (qualifyingReviewsL rest : ℤ) := ha
          refine ⟨?_, hb⟩
          rw [ha']
          push_cast
          ring
        · intro hge
          have h1 : max (limit - (st.review_count + 1)) 1
              ≤ (qualifyingReviewsL rest : ℤ) := by
            push_cast at hge
            omega
          obtain ⟨ha, hb⟩ := hih.2 h1
          have ha' : (processReviews limit now rest
              ⟨st.scores_list ++ [(score_review r.stars r.createdAt now).1],
               st.max_scores_list
                 ++ [(score_review r.stars r.createdAt now).2],
               st.review_count + 1, st.review_count_reached⟩).review_count
              = max limit ((st.review_count + 1) + 1) := ha
          refine ⟨?_, hb⟩
          rw [ha']
          omega
    · rw [processReviews_cons_skip _ _ _ _ _ hc, qualifyingReviewsL_cons,
        hc]
      simpa using ih st hr

/-- The page loop on a chained feed holding enough qualifying reviews:
the counter ends at `max limit (count+1)`, the cap flag is up, and the
number of fetched pages is exactly the number of pages needed to gather
`max (limit - count) 1` further qualifying reviews. -/
theorem runPages_reach (limit : ℤ) (now : ℚ) (ps : List Page) :
    ∀ st : LoopState, Chain ps → st.review_count_reached = false →
      max (limit - st.review_count) 1 ≤ (qualifyingCount ps : ℤ) →
      (runPages limit now ps st).1.review_count
          = max limit (st.review_count + 1) ∧
      (runPages limit now ps st).1.review_count_reached = true ∧
      (runPages limit now ps st).2
          = pagesNeededZ (max (limit - st.review_count) 1) ps := by
  induction ps with
  | nil =>
    intro st _ _ hq
    rw [qualifyingCount_nil] at hq
    exfalso
    omega
  | cons p rest ih =>
    intro st hchain hr hq
    rw [qualifyingCount_cons] at hq
    rw [runPages_cons]
    by_cases hqp : max (limit - st.review_count) 1 ≤ (qualifyingReviews p : ℤ)
    · obtain ⟨ha, hb⟩ :=
        (processReviews_count limit now p.reviews st hr).2 hqp
      rw [if_pos (by rw [hb]; rfl)]
      refine ⟨ha, hb, ?_⟩
      rw [pagesNeededZ_cons, if_pos hqp]
    · push_neg at hqp
      obtain ⟨ha, hb⟩ :=
        (processReviews_count limit now p.reviews st hr).1 hqp
      have ha' : (processReviews limit now p.reviews st).review_count
          = st.review_count + (qualifyingReviews p : ℤ) := ha
      have hrest : rest ≠ [] := by
        intro habs
        rw [habs, qualifyingCount_nil] at hq
        push_cast at hq
        omega
      have hnext : hasNextPage p = true := by
        cases rest with
        | nil => exact absurd rfl hrest
        | cons q qs => exact ((Chain_cons₂ p q qs).mp hchain).1
      have hchain' : Chain rest := by
        cases rest with
        | nil => trivial
        | cons q qs => exact ((Chain_cons₂ p q qs).mp hchain).2
      rw [if_neg (by rw [hb, hnext]; simp)]
      have harg : max (limit
          - (processReviews limit now p.reviews st).review_count) 1
          = max (limit - st.review_count) 1 - (qualifyingReviews p : ℤ) := by
        rw [ha']
        push_cast at hq
        omega
      have hq' : max (limit
          - (processReviews limit now p.reviews st).review_count) 1
          ≤ (qualifyingCount rest : ℤ) := by
        rw [harg]
        push_cast at hq
        omega
      obtain ⟨ha2, hb2, hc2⟩ :=
        ih (processReviews limit now p.reviews st) hchain' hb hq'
      refine ⟨?_, hb2, ?_⟩
      · show (runPages limit now rest
            (processReviews limit now p.reviews st)).1.review_count
            = max limit (st.review_count + 1)
        rw [ha2, ha']
        omega
      · show (runPages limit now rest
            (processReviews limit now p.reviews st)).2 + 1
            = pagesNeededZ (max (limit - st.review_count) 1) (p :: rest)
        rw [pagesNeededZ_cons, if_neg (by omega), hc2, harg]
        omega

/-! ## Non-qualifying reviews are invisible to the loop -/

theorem processReviews_filter (limit : ℤ) (now : ℚ) (rs : List Review) :
    ∀ st : LoopState,
      processReviews limit now
          (rs.filter (fun r => r.countsTowardsTrustScore)) st
        = processReviews limit now rs st := by
  induction rs with
  | nil => intro st; rfl
  | cons r rest ih =>
    intro st
    rcases Bool.eq_false_or_eq_true r.countsTowardsTrustScore with hc | hc
    · rw [List.filter_cons_of_pos (by simp [hc]),
        processReviews_cons_count _ _ _ _ _ hc,
        processReviews_cons_count _ _ _ _ _ hc]
      split_ifs with hl
      · rfl
      · exact ih _
    · rw [List.filter_cons_of_neg (by simp [hc]),
        processReviews_cons_skip _ _ _ _ _ hc]
      exact ih st

theorem runPages_filter (limit : ℤ) (now : ℚ) (ps : List Page) :
    ∀ st : LoopState,
      runPages limit now (ps.map filterPage) st = runPages limit now ps st := by
  induction ps with
  | nil => intro st; rfl
  | cons p rest ih =>
    intro st
    rw [List.map_cons, runPages_cons, runPages_cons]
    have hrev : processReviews limit now (filterPage p).reviews st
        = processReviews limit now p.reviews st :=
      processReviews_filter limit now p.reviews st
    have hnext : hasNextPage (filterPage p) = hasNextPage p := rfl
    rw [hrev, hnext, ih]

/-! ## Helpers for evaluating the pipeline -/

theorem finalState_singleton (revs : List Review) (links : List Link)
    (now : ℚ) (limit : ℤ) :
    finalState [⟨revs, links⟩] now limit
      = processReviews limit now revs initState := by
  unfold finalState
  rw [runPages_singleton]

theorem max_score_threshold_one : max_score_threshold 1 = 6 := by
  rw [max_score_threshold_eq]
  norm_num [Real.log_one]

theorem min_score_threshold_one : min_score_threshold 1 = 6 := by
  rw [min_score_threshold_eq]
  norm_num

/-- The clamp when the raw score lands inside the two thresholds. -/
theorem check_score_threshold_of_mem (s : ℝ) (n : ℤ)
    (h1 : min_score_threshold n ≤ s) (h2 : s ≤ max_score_threshold n) :
    check_score_threshold s n = s := by
  simp only [check_score_threshold]
  rw [if_pos ⟨h1, h2⟩]

/-- The clamp when the raw score exceeds the max threshold. -/
theorem check_score_threshold_of_gt (s : ℝ) (n : ℤ)
    (h1 : max_score_threshold n < s) (h2 : min_score_threshold n ≤ s) :
    check_score_threshold s n = max_score_threshold n := by
  simp only [check_score_threshold]
  rw [if_neg (by intro hin; linarith [hin.2]), if_neg (not_lt.mpr h2)]

/-- With at least one counted review `get_trustscore` succeeds and returns
the clamped score rounded to one decimal place. -/
theorem get_trustscore_ok (feed : List Page) (now : ℚ) (limit : ℤ)
    (h : 1 ≤ (finalState feed now limit).review_count) :
    get_trustscore feed now limit
      = .ok (pyRound1 (clampedScore feed now limit)) := by
  have hpos := finalState_sum_pos feed now limit h
  unfold get_trustscore calculate_trustscore
  rw [if_neg hpos.ne']
  rfl

/-! ## Concrete rounding computations -/

theorem pyRound1_log_three : pyRound1 (Real.log 3 + 6) = 71 / 10 := by
  have hub := log_three_lt
  have hlb := log_three_gt
  unfold pyRound1 roundHalfEven
  rw [show (Real.log 3 + 6) * 10 = 10 * Real.log 3 + 60 by ring]
  have hfl : ⌊(10 * Real.log 3 + 60 : ℝ)⌋ = 70 := by
    rw [Int.floor_eq_iff]
    push_cast
    constructor <;> nlinarith
  have hfr : Int.fract (10 * Real.log 3 + 60 : ℝ) ≠ 1 / 2 := by
    unfold Int.fract
    rw [hfl]
    intro habs
    push_cast at habs
    nlinarith
  rw [if_neg hfr]
  have hr : round (10 * Real.log 3 + 60 : ℝ) = 71 := by
    rw [round_eq, Int.floor_eq_iff]
    push_cast
    constructor <;> nlinarith
  rw [hr]
  norm_num

theorem pyRound1_tie_7_25 : pyRound1 (7.25 : ℝ) = 7.2 := by
  unfold pyRound1 roundHalfEven
  rw [show (7.25 : ℝ) * 10 = 72.5 by norm_num]
  have hfl : ⌊(72.5 : ℝ)⌋ = 72 := by
    rw [Int.floor_eq_iff]
    push_cast
    norm_num
  have hfr : Int.fract (72.5 : ℝ) = 1 / 2 := by
    unfold Int.fract
    rw [hfl]
    norm_num
  rw [if_pos hfr]
  have h2 : ⌊((72.5 : ℝ) + 1) / 2⌋ = 36 := by
    rw [show ((72.5 : ℝ) + 1) / 2 = 36.75 by norm_num, Int.floor_eq_iff]
    push_cast
    norm_num
  rw [h2]
  norm_num

theorem pyRound1_six : pyRound1 (6 : ℝ) = 6 := by
  have h := pyRound1_int_tenth 60
  norm_num at h
  exact h

/-! ## Concrete reviews and feeds used as test inputs -/

/-- A five-star qualifying review created at day 0. -/
def reviewFive : Review := ⟨5, 0, true⟩

/-- A two-star qualifying review created at day 0. -/
def reviewTwo : Review := ⟨2, 0, true⟩

/-- A one-star qualifying review created at day 0. -/
def reviewOne : Review := ⟨1, 0, true⟩

/-- A review with `countsTowardsTrustScore = false`. -/
def reviewNoCount : Review := ⟨4, 0, false⟩

/-- Three five-star reviews on a single page without further links. -/
def feedC1 : List Page := [⟨[reviewFive, reviewFive, reviewFive], []⟩]

/-- One five-star review on a single page (used as a witness input). -/
def feedW1 : List Page := [⟨[reviewFive], []⟩]

/-- Ten reviews whose average star score is exactly 0.725, on one page. -/
def feedC2 : List Page :=
  [⟨[reviewFive, reviewFive, reviewFive, reviewFive, reviewFive, reviewFive,
     reviewFive, reviewTwo, reviewOne, reviewOne], []⟩]

/-- Two linked pages with two and one qualifying reviews. -/
def feedW3 : List Page :=
  [⟨[reviewFive, reviewFive], [⟨"next-page", "page2"⟩]⟩,
   ⟨[reviewFive], []⟩]

/-- One five-star review on a single page (cap-validation input). -/
def feedC4 : List Page := [⟨[reviewFive], []⟩]

/-- A single page holding only a non-qualifying review and no links. -/
def feedC8 : List Page := [⟨[reviewNoCount], []⟩]

/-- A single page with one qualifying review and no links. -/
def pageW8 : Page := ⟨[reviewFive], []⟩

/-- A feed with no qualifying review at all. -/
def feedZ10 : List Page := [⟨[reviewNoCount], []⟩]

/-- A feed with exactly one qualifying review. -/
def feedP10 : List Page := [⟨[reviewFive], []⟩]

/-! ## Evaluating the loop on the concrete feeds -/

theorem feedC1_state :
    finalState feedC1 0 300
      = ⟨[score_stars 5 * score_date 0 0, score_stars 5 * score_date 0 0,
          score_stars 5 * score_date 0 0],
         [score_date 0 0, score_date 0 0, score_date 0 0], 3, false⟩ := by
  rw [show feedC1 = [(⟨[reviewFive, reviewFive, reviewFive], []⟩ : Page)]
      from rfl, finalState_singleton]
  simp [processReviews, reviewFive, initState, score_review]

theorem feedW1_state :
    finalState feedW1 0 300
      = ⟨[score_stars 5 * score_date 0 0], [score_date 0 0], 1, false⟩ := by
  rw [show feedW1 = [(⟨[reviewFive], []⟩ : Page)] from rfl,
    finalState_singleton]
  simp [processReviews, reviewFive, initState, score_review]

theorem feedC2_state :
    finalState feedC2 0 300
      = ⟨[score_stars 5 * score_date 0 0, score_stars 5 * score_date 0 0,
          score_stars 5 * score_date 0 0, score_stars 5 * score_date 0 0,
          score_stars 5 * score_date 0 0, score_stars 5 * score_date 0 0,
          score_stars 5 * score_date 0 0, score_stars 2 * score_date 0 0,
          score_stars 1 * score_date 0 0, score_stars 1 * score_date 0 0],
         [score_date 0 0, score_date 0 0, score_date 0 0, score_date 0 0,
          score_date 0 0, score_date 0 0, score_date 0 0, score_date 0 0,
          score_date 0 0, score_date 0 0], 10, false⟩ := by
  rw [show feedC2 = [(⟨[reviewFive, reviewFive, reviewFive, reviewFive,
      reviewFive, reviewFive, reviewFive, reviewTwo, reviewOne, reviewOne],
      []⟩ : Page)] from rfl, finalState_singleton]
  simp [processReviews, reviewFive, reviewTwo, reviewOne, initState,
    score_review]

theorem feedC4_state :
    finalState feedC4 0 0
      = ⟨[score_stars 5 * score_date 0 0], [score_date 0 0], 1, true⟩ := by
  rw [show feedC4 = [(⟨[reviewFive], []⟩ : Page)] from rfl,
    finalState_singleton]
  simp [processReviews, reviewFive, initState, score_review]

theorem feedC8_state : finalState feedC8 0 300 = initState := by
  rw [show feedC8 = [(⟨[reviewNoCount], []⟩ : Page)] from rfl,
    finalState_singleton]
  simp [processReviews, reviewNoCount]

theorem feedC1_clamped : clampedScore feedC1 0 300 = Real.log 3 + 6 := by
  have hs : (finalState feedC1 0 300).scores_list
      = [score_stars 5 * score_date 0 0, score_stars 5 * score_date 0 0,
         score_stars 5 * score_date 0 0] := by rw [feedC1_state]
  have hm : (finalState feedC1 0 300).max_scores_list
      = [score_date 0 0, score_date 0 0, score_date 0 0] := by
    rw [feedC1_state]
  have hd0 : score_date 0 0 ≠ 0 := (dateScoreOfAge_pos _).ne'
  unfold clampedScore rawAggregate
  rw [hs, hm]
  have hraw : ([score_stars 5 * score_date 0 0, score_stars 5 * score_date 0 0,
      score_stars 5 * score_date 0 0] : List ℝ).sum
      / ([score_date 0 0, score_date 0 0, score_date 0 0] : List ℝ).sum * 10
      = 10 := by
    have h1 : ([score_stars 5 * score_date 0 0, score_stars 5 * score_date 0 0,
        score_stars 5 * score_date 0 0] : List ℝ).sum
        = 3 * score_date 0 0 := by
      simp only [List.sum_cons, List.sum_nil, score_stars]
      push_cast
      ring
    have h2 : ([score_date 0 0, score_date 0 0, score_date 0 0] : List ℝ).sum
        = 3 * score_date 0 0 := by
      simp only [List.sum_cons, List.sum_nil]
      ring
    rw [h1, h2, div_self (mul_ne_zero (by norm_num) hd0)]
    norm_num
  rw [hraw]
  have hlen : ((([score_stars 5 * score_date 0 0,
      score_stars 5 * score_date 0 0,
      score_stars 5 * score_date 0 0] : List ℝ).length : ℤ)) = 3 := by
    norm_num
  rw [hlen]
  have h1 : max_score_threshold 3 < 10 := by
    rw [max_score_threshold_eq]
    push_cast
    linarith [log_three_lt]
  have h2 : min_score_threshold 3 ≤ 10 :=
    le_trans (min_score_threshold_le_six 3 (by norm_num)) (by norm_num)
  rw [check_score_threshold_of_gt 10 3 h1 h2, max_score_threshold_eq]
  push_cast
  ring

/-- C1 counterexample: on a one-page feed of three fresh five-star reviews
the raw score 10 clamps to `ln 3 + 6 ≈ 7.0986`, but the returned TrustScore
is the rounded value 7.1, which lies strictly above `max_threshold(3)` —
so the value returned by `get_trustscore` is not always inside
`[min_threshold(n), max_threshold(n)]`. -/
theorem trustscore_above_max_threshold :
    get_trustscore feedC1 0 300 = .ok (71 / 10) ∧
    (finalState feedC1 0 300).review_count = 3 ∧
    max_score_threshold ((finalState feedC1 0 300).scores_list.length : ℤ)
      < 71 / 10 := by
  have hcount : 1 ≤ (finalState feedC1 0 300).review_count := by
    rw [feedC1_state]
    show (1 : ℤ) ≤ 3
    norm_num
  refine ⟨?_, ?_, ?_⟩
  · rw [get_trustscore_ok feedC1 0 300 hcount, feedC1_clamped,
      pyRound1_log_three]
  · rw [feedC1_state]
  · have hlen : ((finalState feedC1 0 300).scores_list.length : ℤ) = 3 := by
      rw [feedC1_state]
      norm_num
    rw [hlen, max_score_threshold_eq]
    push_cast
    linarith [log_three_lt]

theorem feedC2_clamped : clampedScore feedC2 0 300 = 7.25 := by
  have hs : (finalState feedC2 0 300).scores_list
      = [score_stars 5 * score_date 0 0, score_stars 5 * score_date 0 0,
         score_stars 5 * score_date 0 0, score_stars 5 * score_date 0 0,
         score_stars 5 * score_date 0 0, score_stars 5 * score_date 0 0,
         score_stars 5 * score_date 0 0, score_stars 2 * score_date 0 0,
         score_stars 1 * score_date 0 0, score_stars 1 * score_date 0 0] := by
    rw [feedC2_state]
  have hm : (finalState feedC2 0 300).max_scores_list
      = [score_date 0 0, score_date 0 0, score_date 0 0, score_date 0 0,
         score_date 0 0, score_date 0 0, score_date 0 0, score_date 0 0,
         score_date 0 0, score_date 0 0] := by
    rw [feedC2_state]
  have hd0 : score_date 0 0 ≠ 0 := (dateScoreOfAge_pos _).ne'
  unfold clampedScore rawAggregate
  rw [hs, hm]
  have hraw : ([score_stars 5 * score_date 0 0, score_stars 5 * score_date 0 0,
      score_stars 5 * score_date 0 0, score_stars 5 * score_date 0 0,
      score_stars 5 * score_date 0 0, score_stars 5 * score_date 0 0,
      score_stars 5 * score_date 0 0, score_stars 2 * score_date 0 0,
      score_stars 1 * score_date 0 0,
      score_stars 1 * score_date 0 0] : List ℝ).sum
      / ([score_date 0 0, score_date 0 0, score_date 0 0, score_date 0 0,
          score_date 0 0, score_date 0 0, score_date 0 0, score_date 0 0,
          score_date 0 0, score_date 0 0] : List ℝ).sum * 10
      = 7.25 := by
    have h1 : ([score_stars 5 * score_date 0 0, score_stars 5 * score_date 0 0,
        score_stars 5 * score_date 0 0, score_stars 5 * score_date 0 0,
        score_stars 5 * score_date 0 0, score_stars 5 * score_date 0 0,
        score_stars 5 * score_date 0 0, score_stars 2 * score_date 0 0,
        score_stars 1 * score_date 0 0,
        score_stars 1 * score_date 0 0] : List ℝ).sum
        = 29 / 4 * score_date 0 0 := by
      simp only [List.sum_cons, List.sum_nil, score_stars]
      push_cast
      ring
    have h2 : ([score_date 0 0, score_date 0 0, score_date 0 0, score_date 0 0,
        score_date 0 0, score_date 0 0, score_date 0 0, score_date 0 0,
        score_date 0 0, score_date 0 0] : List ℝ).sum
        = 10 * score_date 0 0 := by
      simp only [List.sum_cons, List.sum_nil]
      ring
    rw [h1, h2, show (29 / 4 : ℝ) * score_date 0 0 / (10 * score_date 0 0) * 10
        = 29 / 4 * (score_date 0 0 / score_date 0 0) from by ring,
      div_self hd0]
    norm_num
  rw [hraw]
  have hlen : ((([score_stars 5 * score_date 0 0,
      score_stars 5 * score_date 0 0, score_stars 5 * score_date 0 0,
      score_stars 5 * score_date 0 0, score_stars 5 * score_date 0 0,
      score_stars 5 * score_date 0 0, score_stars 5 * score_date 0 0,
      score_stars 2 * score_date 0 0, score_stars 1 * score_date 0 0,
      score_stars 1 * score_date 0 0] : List ℝ).length : ℤ)) = 10 := by
    norm_num
  rw [hlen]
  apply check_score_threshold_of_mem
  · exact le_trans (min_score_threshold_le_six 10 (by norm_num)) (by norm_num)
  · rw [max_score_threshold_eq]
    push_cast
    linarith [log_ten_gt]

/-- C2: the clamped score of this input is exactly 7.25, yet the returned
TrustScore is 7.2, not 7.3: the builtin float `round` performs half-even
rounding, and the `decimal` context set two lines earlier does not change
that — contradicting the code's own comment "ensure python rounds up .5". -/
theorem rounding_at_tie_returns_7_2 :
    clampedScore feedC2 0 300 = 7.25 ∧
    get_trustscore feedC2 0 300 = .ok (7.2 : ℝ) ∧
    (7.2 : ℝ) ≠ 7.3 := by
  have hcount : 1 ≤ (finalState feedC2 0 300).review_count := by
    rw [feedC2_state]
    show (1 : ℤ) ≤ 10
    norm_num
  refine ⟨feedC2_clamped, ?_, by norm_num⟩
  rw [get_trustscore_ok feedC2 0 300 hcount, feedC2_clamped, pyRound1_tie_7_25]

theorem feedC4_clamped : clampedScore feedC4 0 0 = 6 := by
  have hs : (finalState feedC4 0 0).scores_list
      = [score_stars 5 * score_date 0 0] := by rw [feedC4_state]
  have hm : (finalState feedC4 0 0).max_scores_list = [score_date 0 0] := by
    rw [feedC4_state]
  have hd0 : score_date 0 0 ≠ 0 := (dateScoreOfAge_pos _).ne'
  unfold clampedScore rawAggregate
  rw [hs, hm]
  have hraw : ([score_stars 5 * score_date 0 0] : List ℝ).sum
      / ([score_date 0 0] : List ℝ).sum * 10 = 10 := by
    have h1 : ([score_stars 5 * score_date 0 0] : List ℝ).sum
        = score_date 0 0 := by
      simp only [List.sum_cons, List.sum_nil, score_stars]
      push_cast
      ring
    have h2 : ([score_date 0 0] : List ℝ).sum = score_date 0 0 := by
      simp only [List.sum_cons, List.sum_nil]
      ring
    rw [h1, h2, div_self hd0]
    norm_num
  rw [hraw]
  have hlen : ((([score_stars 5 * score_date 0 0] : List ℝ).length : ℤ)) = 1 := by
    norm_num
  rw [hlen]
  rw [check_score_threshold_of_gt 10 1 (by rw [max_score_threshold_one]; norm_num)
    (by rw [min_score_threshold_one]; norm_num), max_score_threshold_one]

/-- C4 counterexample: called with a cap of 0 the code raises no
`InvalidArgumentError` (no validation exists); it scores the first
qualifying review — the counter ends at 1 — and returns a TrustScore. -/
theorem cap_zero_not_rejected :
    get_trustscore feedC4 0 0 = .ok 6 ∧
    (finalState feedC4 0 0).review_count = 1 := by
  have hcount : 1 ≤ (finalState feedC4 0 0).review_count := by
    rw [feedC4_state]
  refine ⟨?_, by rw [feedC4_state]⟩
  rw [get_trustscore_ok feedC4 0 0 hcount, feedC4_clamped, pyRound1_six]

/-- C8 counterexample: a single page with no `next-page` link and zero
qualifying reviews (fewer than the cap of 300) does not terminate without
error — the aggregation divides by zero. -/
theorem empty_page_division_error :
    get_trustscore feedC8 0 300 = .error .zeroDivisionError := by
  unfold get_trustscore calculate_trustscore
  rw [feedC8_state]
  simp [initState]

/-! ## The main claim theorems -/

/-- C1 (amended): for every scoring request with `n ≥ 1` counted reviews
the clamped score (before the final rounding) lies within
`[min_threshold(n), max_threshold(n)]`; the returned TrustScore is that
clamped score rounded to one decimal place, hence lies within the interval
enlarged by 1/20 on each side (and can fall outside the exact interval, see
the counterexample). -/
theorem trustscore_clamped_within_rounding (feed : List Page) (now : ℚ)
    (limit : ℤ) (h : 1 ≤ (finalState feed now limit).review_count) :
    min_score_threshold ((finalState feed now limit).scores_list.length : ℤ)
        ≤ clampedScore feed now limit ∧
    clampedScore feed now limit
        ≤ max_score_threshold
            ((finalState feed now limit).scores_list.length : ℤ) ∧
    get_trustscore feed now limit
        = .ok (pyRound1 (clampedScore feed now limit)) ∧
    min_score_threshold ((finalState feed now limit).scores_list.length : ℤ)
        - 1 / 20 ≤ pyRound1 (clampedScore feed now limit) ∧
    pyRound1 (clampedScore feed now limit)
        ≤ max_score_threshold
            ((finalState feed now limit).scores_list.length : ℤ) + 1 / 20 := by
  have hcons := finalState_consistent feed now limit
  have hn : 1 ≤ (((finalState feed now limit).scores_list.length : ℤ)) := by
    rw [← hcons.1]
    exact h
  have hmem := check_score_threshold_mem (rawAggregate feed now limit)
    ((finalState feed now limit).scores_list.length : ℤ) hn
  have hnear := pyRound1_near (clampedScore feed now limit)
  rw [abs_le] at hnear
  have hclamp : clampedScore feed now limit
      = check_score_threshold (rawAggregate feed now limit)
          ((finalState feed now limit).scores_list.length : ℤ) := rfl
  refine ⟨?_, ?_, get_trustscore_ok feed now limit h, ?_, ?_⟩
  · rw [hclamp]; exact hmem.1
  · rw [hclamp]; exact hmem.2
  · rw [hclamp] at hnear ⊢
    have := hmem.1
    linarith [hnear.1, hnear.2]
  · rw [hclamp] at hnear ⊢
    have := hmem.2
    linarith [hnear.1, hnear.2]

/-- Witness for the amended C1 at a concrete one-review feed. -/
theorem trustscore_clamped_within_rounding_witness :
    min_score_threshold ((finalState feedW1 0 300).scores_list.length : ℤ)
        ≤ clampedScore feedW1 0 300 ∧
    clampedScore feedW1 0 300
        ≤ max_score_threshold
            ((finalState feedW1 0 300).scores_list.length : ℤ) ∧
    get_trustscore feedW1 0 300
        = .ok (pyRound1 (clampedScore feedW1 0 300)) ∧
    min_score_threshold ((finalState feedW1 0 300).scores_list.length : ℤ)
        - 1 / 20 ≤ pyRound1 (clampedScore feedW1 0 300) ∧
    pyRound1 (clampedScore feedW1 0 300)
        ≤ max_score_threshold
            ((finalState feedW1 0 300).scores_list.length : ℤ) + 1 / 20 :=
  trustscore_clamped_within_rounding feedW1 0 300
    (by rw [feedW1_state])

/-- How many pages the cap needs: `pagesNeededZ needed ps` is the length of
the least prefix of `ps` holding at least `needed` qualifying reviews. -/
theorem pagesNeededZ_prefix (ps : List Page) :
    ∀ needed : ℤ, 1 ≤ needed → needed ≤ (qualifyingCount ps : ℤ) →
      needed ≤ (qualifyingCount (ps.take (pagesNeededZ needed ps)) : ℤ) ∧
      ∀ m : ℕ, m < pagesNeededZ needed ps →
        (qualifyingCount (ps.take m) : ℤ) < needed := by
  induction ps with
  | nil =>
    intro needed h1 h2
    rw [qualifyingCount_nil] at h2
    exfalso
    omega
  | cons p rest ih =>
    intro needed h1 h2
    rw [qualifyingCount_cons] at h2
    rw [pagesNeededZ_cons]
    split_ifs with hqp
    · constructor
      · rw [List.take_succ_cons, List.take_zero, qualifyingCount_cons,
          qualifyingCount_nil]
        push_cast
        omega
      · intro m hm
        have hm0 : m = 0 := by omega
        subst hm0
        rw [List.take_zero, qualifyingCount_nil]
        omega
    · push_neg at hqp
      obtain ⟨iha, ihb⟩ := ih (needed - (qualifyingReviews p : ℤ))
        (by omega) (by push_cast at h2 ⊢; omega)
      constructor
      · rw [Nat.add_comm 1 _, List.take_succ_cons, qualifyingCount_cons]
        push_cast at iha ⊢
        omega
      · intro m hm
        cases m with
        | zero =>
          rw [List.take_zero, qualifyingCount_nil]
          omega
        | succ k =>
          rw [List.take_succ_cons, qualifyingCount_cons]
          have hk : k < pagesNeededZ (needed - (qualifyingReviews p : ℤ)) rest := by
            omega
          have := ihb k hk
          push_cast at this ⊢
          omega

/-- C3: on a chained feed holding at least `L` qualifying reviews, with cap
`limit = L ≥ 1`, the loop counts exactly `L` reviews, raises the cap flag
(stopping mid-page at the `L`-th qualifying review), and fetches exactly
the pages up to the one on which the cap is reached: the fetched prefix is
the least one holding `L` qualifying reviews. -/
theorem cap_enforcement (feed : List Page) (now : ℚ) (L : ℕ)
    (hchain : Chain feed) (hL : 1 ≤ L) (hq : L ≤ qualifyingCount feed) :
    (finalState feed now (L : ℤ)).review_count = (L : ℤ) ∧
    (finalState feed now (L : ℤ)).review_count_reached = true ∧
    L ≤ qualifyingCount (feed.take (fetchedPages feed now (L : ℤ))) ∧
    ∀ m : ℕ, m < fetchedPages feed now (L : ℤ) →
      qualifyingCount (feed.take m) < L := by
  have hneed : max ((L : ℤ) - initState.review_count) 1 = (L : ℤ) := by
    show max ((L : ℤ) - 0) 1 = (L : ℤ)
    omega
  have hrun := runPages_reach (L : ℤ) now feed initState hchain rfl
    (by rw [hneed]; exact_mod_cast hq)
  obtain ⟨ha, hb, hc⟩ := hrun
  have hcount : (finalState feed now (L : ℤ)).review_count = (L : ℤ) := by
    show (runPages (L : ℤ) now feed initState).1.review_count = (L : ℤ)
    rw [ha]
    show max (L : ℤ) ((0 : ℤ) + 1) = (L : ℤ)
    omega
  have hfetch : fetchedPages feed now (L : ℤ)
      = pagesNeededZ (L : ℤ) feed := by
    show (runPages (L : ℤ) now feed initState).2 = _
    rw [hc, hneed]
  obtain ⟨hpre, hmin⟩ := pagesNeededZ_prefix feed (L : ℤ)
    (by exact_mod_cast hL) (by exact_mod_cast hq)
  refine ⟨hcount, hb, ?_, ?_⟩
  · rw [hfetch]
    exact_mod_cast hpre
  · intro m hm
    rw [hfetch] at hm
    have := hmin m hm
    exact_mod_cast this

/-- Witness for C3: two chained pages with 2+1 qualifying reviews and cap
3: all three counted, flag raised, both pages needed. -/
theorem cap_enforcement_witness :
    (finalState feedW3 0 ((3 : ℕ) : ℤ)).review_count = ((3 : ℕ) : ℤ) ∧
    (finalState feedW3 0 ((3 : ℕ) : ℤ)).review_count_reached = true ∧
    3 ≤ qualifyingCount (feedW3.take (fetchedPages feedW3 0 ((3 : ℕ) : ℤ))) := by
  have h := cap_enforcement feedW3 0 3 (by exact ⟨by decide, trivial⟩)
    (by norm_num) (by decide)
  exact ⟨h.1, h.2.1, h.2.2.1⟩

/-- C4 (amended): the code performs no validation of the cap: with a cap of
0 or negative no `InvalidArgumentError` is raised; the loop still scores
the first qualifying review (the cap check runs only after a review is
counted), so on a chained feed with at least one qualifying review exactly
one review is counted and a TrustScore is returned. -/
theorem nonpositive_cap_scores_first_review (feed : List Page) (now : ℚ)
    (limit : ℤ) (hlim : limit ≤ 0) (hchain : Chain feed)
    (hq : 1 ≤ qualifyingCount feed) :
    (finalState feed now limit).review_count = 1 ∧
    (Except.isOk (get_trustscore feed now limit)) = true := by
  have hrun := runPages_reach limit now feed initState hchain rfl
    (by show max (limit - (0 : ℤ)) 1 ≤ _; omega)
  obtain ⟨ha, hb, _⟩ := hrun
  have hcount : (finalState feed now limit).review_count = 1 := by
    show (runPages limit now feed initState).1.review_count = 1
    rw [ha]
    show max limit ((0 : ℤ) + 1) = 1
    omega
  refine ⟨hcount, ?_⟩
  rw [get_trustscore_ok feed now limit (by rw [hcount])]
  rfl

/-- Witness for the amended C4 at the concrete one-review feed, cap 0. -/
theorem nonpositive_cap_scores_first_review_witness :
    (finalState feedC4 0 0).review_count = 1 ∧
    (Except.isOk (get_trustscore feedC4 0 0)) = true :=
  nonpositive_cap_scores_first_review feedC4 0 0 (by norm_num) trivial
    (by decide)

/-- C5 (amended): `_get_business_unit` has exactly two failure modes and no
retry: a transport/HTTP exception raised by `requests` propagates through
unwrapped, and a provider response without an `"id"` key raises
`KeyError('id')`; on a successful fetch no other exception — in particular
no `NotFoundError` and no `UpstreamError` — can be produced. -/
theorem resolver_failure_modes (data : List (String × String)) (msg : String) :
    get_business_unit (.error msg) = .error (.requestsError msg) ∧
    (data.find? (fun kv => kv.1 == "id") = none →
      get_business_unit (.ok data) = .error (.keyError "id")) ∧
    ∀ e : PyErr, get_business_unit (.ok data) = .error e →
      e = .keyError "id" := by
  refine ⟨rfl, ?_, ?_⟩
  · intro h
    simp [get_business_unit, get_json, dictGetStr, h]
  · intro e he
    simp only [get_business_unit, get_json, dictGetStr] at he
    rcases hf : data.find? (fun kv => kv.1 == "id") with _ | kv
    · rw [hf] at he
      simp only [Except.error.injEq] at he
      exact he.symm
    · rw [hf] at he
      simp at he

/-- Witness for the amended C5: a transport failure and a response without
an `id` field, at concrete inputs. -/
theorem resolver_failure_modes_witness :
    get_business_unit (.error "connection reset")
        = .error (.requestsError "connection reset") ∧
    get_business_unit (.ok [("name", "acme")]) = .error (.keyError "id") := by
  have h := resolver_failure_modes [("name", "acme")] "connection reset"
  exact ⟨h.1, h.2.1 (by decide)⟩

/-- C5 counterexample: when the provider returns no matching unit (a JSON
object without an `id` field) the resolver raises `KeyError('id')`, not a
`NotFoundError` — no such exception class exists in the code. -/
theorem resolver_keyerror_not_notfound :
    get_business_unit (.ok [("name", "acme")]) = .error (.keyError "id") ∧
    get_business_unit (.ok [("name", "acme")]) ≠ .error .notFoundError := by
  constructor
  · rfl
  · simp [get_business_unit, get_json, dictGetStr]

/-- C7: reviews whose `countsTowardsTrustScore` flag is false are invisible
to the whole computation: dropping them from every page changes neither the
loop state (score sums, max-score sums, counted total, cap flag), nor the
number of fetched pages, nor the returned TrustScore. -/
theorem non_counting_reviews_excluded (feed : List Page) (now : ℚ)
    (limit : ℤ) :
    runPages limit now (feed.map filterPage) initState
        = runPages limit now feed initState ∧
    get_trustscore (feed.map filterPage) now limit
        = get_trustscore feed now limit := by
  refine ⟨runPages_filter limit now feed initState, ?_⟩
  unfold get_trustscore finalState
  rw [runPages_filter]

/-- C8 (amended): when the first fetched page has no `next-page` link the
loop stops after that single fetch whatever the cap — no further page of
the feed is touched and the state is that of the one-page feed; provided
at least one qualifying review was found, a TrustScore is returned without
error (with zero qualifying reviews the aggregation divides by zero, see
the counterexample). -/
theorem no_next_page_stops (p : Page) (rest : List Page) (now : ℚ)
    (limit : ℤ) (h : hasNextPage p = false) :
    fetchedPages (p :: rest) now limit = 1 ∧
    finalState (p :: rest) now limit = finalState [p] now limit ∧
    (1 ≤ (finalState (p :: rest) now limit).review_count →
      (Except.isOk (get_trustscore (p :: rest) now limit)) = true) := by
  have hrun : runPages limit now (p :: rest) initState
      = (processReviews limit now p.reviews initState, 1) := by
    rw [runPages_cons, if_pos (by rw [h]; simp)]
  refine ⟨?_, ?_, ?_⟩
  · show (runPages limit now (p :: rest) initState).2 = 1
    rw [hrun]
  · show (runPages limit now (p :: rest) initState).1 = _
    rw [hrun]
    unfold finalState
    rw [runPages_singleton]
  · intro h1
    rw [get_trustscore_ok (p :: rest) now limit h1]
    rfl

/-- Witness for the amended C8 at a concrete single page. -/
theorem no_next_page_stops_witness :
    fetchedPages [pageW8] 0 300 = 1 ∧
    (Except.isOk (get_trustscore [pageW8] 0 300)) = true := by
  have h := no_next_page_stops pageW8 [] 0 300 (by decide)
  refine ⟨h.1, h.2.2 ?_⟩
  have hs : finalState [pageW8] 0 300
      = processReviews 300 0 [reviewFive] initState := by
    rw [show ([pageW8] : List Page) = [(⟨[reviewFive], []⟩ : Page)] from rfl,
      finalState_singleton]
  rw [hs]
  simp [processReviews, reviewFive, initState, score_review]

/-- C10: when zero reviews are counted the unguarded division
`sum([]) / sum([])` raises `ZeroDivisionError` instead of returning a
TrustScore; with at least one counted review the divisor
`sum(max_scores_list)` is strictly positive (every date score lies strictly
between 0 and 1), so the division is well-defined and a TrustScore is
returned. -/
theorem zero_counted_division_by_zero (feed : List Page) (now : ℚ)
    (limit : ℤ) :
    ((finalState feed now limit).review_count = 0 →
      get_trustscore feed now limit = .error .zeroDivisionError) ∧
    (1 ≤ (finalState feed now limit).review_count →
      0 < (finalState feed now limit).max_scores_list.sum ∧
      (Except.isOk (get_trustscore feed now limit)) = true) := by
  constructor
  · intro h0
    obtain ⟨h1, h2⟩ := finalState_consistent feed now limit
    have hlen : ((finalState feed now limit).scores_list.length : ℤ) = 0 := by
      rw [← h1, h0]
    have hs : (finalState feed now limit).scores_list = [] :=
      List.length_eq_zero.mp (by exact_mod_cast hlen)
    have hm : (finalState feed now limit).max_scores_list = [] := by
      rw [hs] at h2
      exact List.length_eq_zero.mp h2.symm
    unfold get_trustscore calculate_trustscore
    rw [hm]
    simp
  · intro h1
    refine ⟨finalState_sum_pos feed now limit h1, ?_⟩
    rw [get_trustscore_ok feed now limit h1]
    rfl

/-- Witness for C10: a feed with no qualifying review raises the division
error; a feed with one qualifying review succeeds with positive divisor. -/
theorem zero_counted_division_by_zero_witness :
    get_trustscore feedZ10 0 300 = .error .zeroDivisionError ∧
    (0 < (finalState feedP10 0 300).max_scores_list.sum ∧
      (Except.isOk (get_trustscore feedP10 0 300)) = true) := by
  constructor
  · refine (zero_counted_division_by_zero feedZ10 0 300).1 ?_
    rw [show feedZ10 = [(⟨[reviewNoCount], []⟩ : Page)] from rfl,
      finalState_singleton]
    simp [processReviews, reviewNoCount, initState]
  · refine (zero_counted_division_by_zero feedP10 0 300).2 ?_
    rw [show feedP10 = [(⟨[reviewFive], []⟩ : Page)] from rfl,
      finalState_singleton]
    simp [processReviews, reviewFive, initState, score_review]

end Trustpilot
